import Mathlib

/-
  Verification of the core of reyronald/async-local-storage
  (src/asyncContext.ts: getAsyncContext with its inner set / get /
  runWithAsyncContext), as a shallow embedding.

  Values flowing through the store are modelled by the inductive JSValue.
  The per-branch store (a JS Map from string keys to values) is an
  association list with JS-Map update semantics (replace in place, else
  append).  Stores are mutable objects, so they live in a heap indexed by
  allocation order; the active-store binding of AsyncLocalStorage is an
  optional heap reference.

  Client code running under the library is deep-embedded as Prog; runTask
  interprets one execution branch up to its next suspension point.  The
  propagation behaviour of node's AsyncLocalStorage itself is not part of
  the repository; following spec section 5 it is modelled by tagging each
  suspended continuation with the binding that was active when it was
  scheduled, and a scheduler (sched) that interleaves independent branches.
-/

namespace AsyncCtx

/-- JS values as far as this library observes them: the store maps string
keys to arbitrary values, and `undefined` is a first-class value that can
be stored (relevant to the present-but-undefined read path). -/
inductive JSValue : Type where
  | undef
  | nullv
  | bool (b : Bool)
  | num (n : Int)
  | str (s : String)
  | arr (l : List JSValue)

mutual

/-- Models JSON.stringify as interpolated into the write-error template
string (for the values the library serializes; the template-literal
rendering of a non-serializable `undefined` is the text "undefined"). -/
def jsonStringify : JSValue → String
  | .undef => "undefined"
  | .nullv => "null"
  | .bool true => "true"
  | .bool false => "false"
  | .num n => toString n
  | .str s => "\"" ++ s ++ "\""
  | .arr l => "[" ++ jsonStringifyItems l ++ "]"

def jsonStringifyItems : List JSValue → String
  | [] => ""
  | [v] => jsonStringify v
  | v :: rest => jsonStringify v ++ "," ++ jsonStringifyItems rest

end

/-- `type StoreMap = Map<Key, Values>` — one per-branch store. -/
abbrev StoreMap := List (String × JSValue)

/-- The heap of allocated stores, indexed by allocation order; models the
object identity of the Maps created by runWithAsyncContext. -/
abbrev Heap := List StoreMap

/-- `store.has(key)` of a JS Map. -/
def mapHas : StoreMap → String → Bool
  | [], _ => false
  | p :: rest, k => p.1 == k || mapHas rest k

/-- `store.get(key)` of a JS Map (undefined when the key is absent). -/
def mapGet : StoreMap → String → JSValue
  | [], _ => .undef
  | p :: rest, k => if p.1 == k then p.2 else mapGet rest k

/-- `store.set(key, value)` of a JS Map: replace in place if the key is
present, otherwise append. -/
def mapSet : StoreMap → String → JSValue → StoreMap
  | [], k, v => [(k, v)]
  | p :: rest, k, v => if p.1 == k then (p.1, v) :: rest else p :: mapSet rest k v

def heapGet : Heap → Nat → StoreMap
  | [], _ => []
  | s :: _, 0 => s
  | _ :: rest, r + 1 => heapGet rest r

def heapSet : Heap → Nat → StoreMap → Heap
  | [], _, _ => []
  | _ :: rest, 0, x => x :: rest
  | s :: rest, r + 1, x => s :: heapSet rest r x

/-- The configuration captured by one getAsyncContext call: the diagnostic
name, the frozen default store, and the onError hook.  The hook may itself
throw, which `Except String Unit` records. -/
structure Registry where
  name : String
  defaults : String → JSValue
  onError : String → Except String Unit

/-- The message of the error thrown by `set` when no store is active
(asyncContext.ts lines 42-48), with name, key and serialized value
interpolated.  The source text reads "hapens". -/
def setMessage (name key serialized : String) : String :=
  "AsyncLocalStorage \"" ++ name ++ "\" store undefined when setting a new value.\n\n" ++
    "This usually hapens when you don\x27t initialize the context before trying to set a value.\n" ++
    "Make sure you are using `runWithAsyncContext` to wrap your entry point.\n\n" ++
    "Key: \t\x27" ++ key ++ "\x27\nValue: \t\x27" ++ serialized ++ "\x27\n"

/-- The message of the error passed to onError by `get` when no store is
active (asyncContext.ts lines 59-65). -/
def getMessage (name key : String) : String :=
  "AsyncLocalStorage \"" ++ name ++ "\" store undefined when getting a value.\n\n" ++
    "This usually hapens when you don\x27t initialize the context before trying to get a value.\n" ++
    "Make sure you are using `runWithAsyncContext` to wrap your entry point.\n\n" ++
    "Key: \t\x27" ++ key ++ "\x27\n"

/-- Modelled from the spec: the exact write-error text given in spec
section 6 ("This usually happens ..."), for comparison against the message
the source actually builds. -/
def specSetMessage (name key serialized : String) : String :=
  "AsyncLocalStorage \"" ++ name ++ "\" store undefined when setting a new value.\n\n" ++
    "This usually happens when you don\x27t initialize the context before trying to set a value.\n" ++
    "Make sure you are using `runWithAsyncContext` to wrap your entry point.\n\n" ++
    "Key: \t\x27" ++ key ++ "\x27\nValue: \t\x27" ++ serialized ++ "\x27\n"

/-- `set` of asyncContext.ts (lines 34-48), over the contents of the
currently active store (`asyncLocalStorage.getStore()`): writes into the
active store, or throws the interpolated error when none is active. -/
def set (reg : Registry) (store? : Option StoreMap) (key : String) (v : JSValue) :
    Except String StoreMap :=
  match store? with
  | some store => .ok (mapSet store key v)
  | none => .error (setMessage reg.name key (jsonStringify v))

/-- `get` of asyncContext.ts (lines 50-70): returns the stored value when
the active store has the key; otherwise falls back to the default, calling
onError first when no store is active at all.  The List String component
logs the messages passed to onError (one entry per hook invocation); the
Except records an exception escaping the read (only possible if the hook
itself throws). -/
def get (reg : Registry) (store? : Option StoreMap) (key : String) :
    List String × Except String JSValue :=
  match store? with
  | some store =>
    if mapHas store key then ([], .ok (mapGet store key))
    else ([], .ok (reg.defaults key))
  | none =>
    let msg := getMessage reg.name key
    match reg.onError msg with
    | .ok _ => ([msg], .ok (reg.defaults key))
    | .error e => ([msg], .error e)

/-- Deep embedding of client code running under the library.  readK and
writeK are accesses through the ctx proxy; runCtxK is a call to
runWithAsyncContext with its initial store and the code following the
call; yieldK is an await-style suspension point; throwK is client code
throwing; tryK is a client-side try/catch around its body; bindK re-enters
a store binding for a resumed continuation (it is what a suspension inside
runWithAsyncContext leaves behind, carrying the continuation tag of spec
section 5). -/
inductive Prog : Type where
  | ret (v : JSValue)
  | readK (key : String) (k : JSValue → Prog)
  | writeK (key : String) (v : JSValue) (k : Prog)
  | runCtxK (init : List (String × JSValue)) (body : Prog) (k : JSValue → Prog)
  | bindK (b : Option Nat) (body : Prog) (k : JSValue → Prog)
  | tryK (body : Prog) (onErr : String → Prog) (k : JSValue → Prog)
  | yieldK (k : Prog)
  | throwK (msg : String)

/-- n await-style suspension points in front of p. -/
def yieldsP : Nat → Prog → Prog
  | 0, p => p
  | n + 1, p => .yieldK (yieldsP n p)

/-- The initial-value writes of runWithAsyncContext expressed through the
ordinary write path: one ctx write per entry, in entries order
(asyncContext.ts lines 86-90), followed by the callback. -/
def writesProg : List (String × JSValue) → Prog → Prog
  | [], body => body
  | (k, v) :: rest, body => .writeK k v (writesProg rest body)

/-- Contents of the active store, if any (`asyncLocalStorage.getStore()`). -/
def storeOf (heap : Heap) : Option Nat → Option StoreMap
  | none => none
  | some r => some (heapGet heap r)

/-- Outcome of running one branch to completion or to its next suspension
point: final heap, onError log, and either a result, a thrown error, or
the tagged continuation left at the suspension. -/
inductive Outcome : Type where
  | finished (heap : Heap) (log : List String) (res : Except String JSValue)
  | suspended (heap : Heap) (log : List String) (rest : Prog)

def withLog (l : List String) : Outcome → Outcome
  | .finished h l' r => .finished h (l ++ l') r
  | .suspended h l' rest => .suspended h (l ++ l') rest

/-- The initial-value writes performed on the fresh store at ref r (the
heap-level counterpart of writesProg, proved equivalent below). -/
def writeInits (h : Heap) (r : Nat) : List (String × JSValue) → Heap
  | [] => h
  | (k, v) :: rest => writeInits (heapSet h r (mapSet (heapGet h r) k v)) r rest

/-- The store contents produced by writing an initial-value list into a
fresh empty store, key by key. -/
def initFold (init : List (String × JSValue)) : StoreMap :=
  init.foldl (fun m p => mapSet m p.1 p.2) []

/-- Interpreter for one execution branch under binding b: read and write
go through get / set against the active store; runCtxK allocates a fresh
empty Map, performs the initial-value writes, runs the body under the new
binding and restores b afterwards, on normal and on exceptional exit alike
(runWithAsyncContext, asyncContext.ts lines 83-95 over
asyncLocalStorage.run); a suspension inside the body is propagated with
the inner binding tagged onto the continuation (spec section 5). -/
def runTask (reg : Registry) (heap : Heap) (b : Option Nat) : Prog → Outcome
  | .ret v => .finished heap [] (.ok v)
  | .throwK msg => .finished heap [] (.error msg)
  | .yieldK k => .suspended heap [] k
  | .readK key k =>
    match get reg (storeOf heap b) key with
    | (l, .error e) => .finished heap l (.error e)
    | (l, .ok v) => withLog l (runTask reg heap b (k v))
  | .writeK key v k =>
    match b with
    | some r => runTask reg (heapSet heap r (mapSet (heapGet heap r) key v)) b k
    | none => .finished heap [] (.error (setMessage reg.name key (jsonStringify v)))
  | .runCtxK init body k =>
    let r := heap.length
    let h := writeInits (heap ++ [[]]) r init
    match runTask reg h (some r) body with
    | .finished h' l (.ok v) => withLog l (runTask reg h' b (k v))
    | .finished h' l (.error e) => .finished h' l (.error e)
    | .suspended h' l rest => .suspended h' l (.bindK (some r) rest k)
  | .bindK b' body k =>
    match runTask reg heap b' body with
    | .finished h' l (.ok v) => withLog l (runTask reg h' b (k v))
    | .finished h' l (.error e) => .finished h' l (.error e)
    | .suspended h' l rest => .suspended h' l (.bindK b' rest k)
  | .tryK body onErr k =>
    match runTask reg heap b body with
    | .finished h' l (.ok v) => withLog l (runTask reg h' b (k v))
    | .finished h' l (.error e) => withLog l (runTask reg h' b (onErr e))
    | .suspended h' l rest => .suspended h' l (.tryK rest onErr k)

/-- One execution branch between scheduler turns: its private heap of
stores, the binding its continuation was tagged with, its accumulated
onError log, and the code remaining. -/
structure Branch : Type where
  heap : Heap
  binding : Option Nat
  log : List String
  prog : Prog

/-- A branch is either still runnable or has settled. -/
inductive TStatus : Type where
  | running (t : Branch)
  | halted (heap : Heap) (log : List String) (res : Except String JSValue)

/-- Give one branch one turn: run it to its next suspension point or to
completion, resuming under the binding its continuation was tagged with. -/
def soloStep (reg : Registry) : TStatus → TStatus
  | .running t =>
    match runTask reg t.heap t.binding t.prog with
    | .finished h l r => .halted h (t.log ++ l) r
    | .suspended h l rest =>
      .running { heap := h, binding := t.binding, log := t.log ++ l, prog := rest }
  | .halted h l r => .halted h l r

def soloIter (reg : Registry) : Nat → TStatus → TStatus
  | 0, s => s
  | n + 1, s => soloIter reg n (soloStep reg s)

def nthT : List TStatus → Nat → Option TStatus
  | [], _ => none
  | t :: _, 0 => some t
  | _ :: rest, i + 1 => nthT rest i

def updAt : List TStatus → Nat → TStatus → List TStatus
  | [], _, _ => []
  | _ :: rest, 0, x => x :: rest
  | t :: rest, i + 1, x => t :: updAt rest i x

/-- Give branch i its turn, leaving every other branch untouched. -/
def stepAt (reg : Registry) (ts : List TStatus) (i : Nat) : List TStatus :=
  match nthT ts i with
  | some st => updAt ts i (soloStep reg st)
  | none => ts

/-- The event-driven scheduler of spec section 5: a schedule is the order
in which the host runtime resumes the branches; each entry gives that
branch one turn up to its next suspension point. -/
def sched (reg : Registry) (sc : List Nat) (ts : List TStatus) : List TStatus :=
  sc.foldl (stepAt reg) ts

/-- How many turns a schedule gives branch i. -/
def turns : List Nat → Nat → Nat
  | [], _ => 0
  | j :: rest, i => turns rest i + (if j == i then 1 else 0)

/-- A concrete registry for counterexamples and witnesses: hook returns. -/
def reg0 : Registry :=
  { name := "app", defaults := fun _ => JSValue.undef, onError := fun _ => Except.ok () }

/-- A concrete registry whose onError hook itself throws. -/
def regE : Registry :=
  { name := "app", defaults := fun _ => JSValue.undef, onError := fun _ => Except.error "hook boom" }

/-- The branch used in the isolation instance: a scope with its own
initial value for key "k", an await-style suspension, then a read. -/
def isoBranch (va : JSValue) : Branch :=
  { heap := [], binding := none, log := [],
    prog := Prog.runCtxK [("k", va)] (Prog.yieldK (Prog.readK "k" Prog.ret)) Prog.ret }

end AsyncCtx
namespace AsyncCtx

/-! ### Properties of the store and heap primitives -/

theorem mapHas_mapSet_self (m : StoreMap) (k : String) (v : JSValue) :
    mapHas (mapSet m k v) k = true := by
  induction m with
  | nil => simp [mapSet, mapHas]
  | cons p rest ih =>
    by_cases h : p.1 == k
    · simp [mapSet, h, mapHas]
    · simp [mapSet, h, mapHas, ih]

theorem mapGet_mapSet_self (m : StoreMap) (k : String) (v : JSValue) :
    mapGet (mapSet m k v) k = v := by
  induction m with
  | nil => simp [mapSet, mapGet]
  | cons p rest ih =>
    by_cases h : p.1 == k
    · simp [mapSet, h, mapGet]
    · simp [mapSet, h, mapGet, ih]

theorem heapGet_append_right (h t : Heap) (r : Nat) :
    heapGet (h ++ t) (h.length + r) = heapGet t r := by
  induction h with
  | nil => simp [heapGet]
  | cons s rest ih =>
    have hidx : (s :: rest).length + r = (rest.length + r) + 1 := by
      simp [List.length_cons]; omega
    rw [List.cons_append, hidx]
    simpa [heapGet] using ih

theorem heapGet_append_zero (h t : Heap) : heapGet (h ++ t) h.length = heapGet t 0 := by
  simpa using heapGet_append_right h t 0

theorem heapGet_mid (H1 : Heap) (s : StoreMap) (H2 : Heap) :
    heapGet (H1 ++ s :: H2) H1.length = s := by
  simpa [heapGet] using heapGet_append_zero H1 (s :: H2)

theorem heapSet_mid (H1 : Heap) (s : StoreMap) (H2 : Heap) (x : StoreMap) :
    heapSet (H1 ++ s :: H2) H1.length x = H1 ++ x :: H2 := by
  induction H1 with
  | nil => simp [heapSet]
  | cons a rest ih => simp [heapSet, List.length_cons, ih]

theorem heapSet_last (h : Heap) (s x : StoreMap) :
    heapSet (h ++ [s]) h.length x = h ++ [x] := by
  simpa using heapSet_mid h s [] x

theorem heapGet_last (h : Heap) (s : StoreMap) : heapGet (h ++ [s]) h.length = s :=
  heapGet_mid h s []

/-! ### The initial-value writes of runWithAsyncContext -/

theorem writeInits_last (init : List (String × JSValue)) (h : Heap) (s : StoreMap) :
    writeInits (h ++ [s]) h.length init
      = h ++ [init.foldl (fun m p => mapSet m p.1 p.2) s] := by
  induction init generalizing s with
  | nil => simp [writeInits]
  | cons p rest ih =>
    obtain ⟨k, v⟩ := p
    rw [writeInits, heapGet_last, heapSet_last, ih]
    simp

/-- Special case used when the fresh store is the first allocation. -/
theorem writeInits_fresh (init : List (String × JSValue)) (h : Heap) :
    writeInits (h ++ [[]]) h.length init = h ++ [initFold init] :=
  writeInits_last init h []

/-- The heap-level initial writes agree with running the same writes
through the interpreter, i.e. through the ordinary ctx write path. -/
theorem runTask_writesProg (init : List (String × JSValue)) (reg : Registry)
    (h : Heap) (r : Nat) (body : Prog) :
    runTask reg h (some r) (writesProg init body)
      = runTask reg (writeInits h r init) (some r) body := by
  induction init generalizing h with
  | nil => simp [writesProg, writeInits]
  | cons p rest ih =>
    obtain ⟨k, v⟩ := p
    rw [writesProg, writeInits, runTask]
    exact ih _

/-! ### Scheduler facts -/

theorem withLog_nil (o : Outcome) : withLog [] o = o := by
  cases o <;> simp [withLog]

theorem soloIter_halted (reg : Registry) (n : Nat) (h : Heap) (l : List String)
    (r : Except String JSValue) : soloIter reg n (.halted h l r) = .halted h l r := by
  induction n with
  | zero => rfl
  | succ m ih => simpa [soloIter, soloStep] using ih

theorem soloIter_add_two (reg : Registry) (c : Nat) (s : TStatus) :
    soloIter reg (c + 2) s = soloIter reg c (soloStep reg (soloStep reg s)) := rfl

theorem nthT_updAt_self (ts : List TStatus) (i : Nat) (x st : TStatus)
    (h : nthT ts i = some st) : nthT (updAt ts i x) i = some x := by
  induction ts generalizing i with
  | nil => simp [nthT] at h
  | cons t rest ih =>
    cases i with
    | zero => simp [nthT, updAt]
    | succ j => simpa [nthT, updAt] using ih j (by simpa [nthT] using h)

theorem nthT_updAt_ne (ts : List TStatus) (i j : Nat) (x : TStatus) (h : i ≠ j) :
    nthT (updAt ts i x) j = nthT ts j := by
  induction ts generalizing i j with
  | nil => simp [updAt]
  | cons t rest ih =>
    cases i with
    | zero =>
      cases j with
      | zero => exact absurd rfl h
      | succ j' => simp [nthT, updAt]
    | succ i' =>
      cases j with
      | zero => simp [nthT, updAt]
      | succ j' => simpa [nthT, updAt] using ih i' j' (fun hh => h (by rw [hh]))

theorem sched_nil (reg : Registry) (ts : List TStatus) : sched reg [] ts = ts := rfl

theorem sched_cons (reg : Registry) (j : Nat) (rest : List Nat) (ts : List TStatus) :
    sched reg (j :: rest) ts = sched reg rest (stepAt reg ts j) := rfl

/-- Non-interference of independent branches: under any schedule, what the
scheduler records for branch i is exactly the result of giving branch i
its turns in isolation.  No other branch, whatever it reads, writes or
allocates, influences branch i's heap, its onError log or its result. -/
theorem sched_proj (sc : List Nat) (reg : Registry) (ts : List TStatus) (i : Nat) :
    nthT (sched reg sc ts) i = (nthT ts i).map (soloIter reg (turns sc i)) := by
  induction sc generalizing ts with
  | nil =>
    cases h : nthT ts i <;> simp [sched_nil, turns, soloIter, h]
  | cons j rest ih =>
    rw [sched_cons, ih]
    by_cases hji : j = i
    · subst hji
      cases h : nthT ts j with
      | none => simp [stepAt, h, turns]
      | some st =>
        have h1 : nthT (stepAt reg ts j) j = some (soloStep reg st) := by
          simp only [stepAt, h]
          exact nthT_updAt_self ts j _ st h
        simp [h1, h, turns, soloIter]
    · have h1 : nthT (stepAt reg ts j) i = nthT ts i := by
        cases h : nthT ts j with
        | none => simp [stepAt, h]
        | some st =>
          simp only [stepAt, h]
          exact nthT_updAt_ne ts j i _ (fun hh => hji hh)
      have h2 : turns (j :: rest) i = turns rest i := by
        simp [turns, hji]
      rw [h1, h2]

theorem turns_append (a b : List Nat) (i : Nat) :
    turns (a ++ b) i = turns a i + turns b i := by
  induction a with
  | nil => simp [turns]
  | cons j rest ih => simp [turns, ih]; omega

end AsyncCtx
namespace AsyncCtx

/-! ### Trajectories of a single branch across suspension points -/

/-- A resumed continuation inside a scope that still has awaits left just
suspends again, keeping its store tag. -/
theorem bind_yields_ret (reg : Registry) (m : Nat) (H : Heap) (lg : List String)
    (r : Nat) (v : JSValue) :
    soloIter reg (m + 1)
        (.running { heap := H, binding := none, log := lg,
                    prog := Prog.bindK (some r) (yieldsP m (Prog.ret v)) Prog.ret })
      = .halted H lg (.ok v) := by
  induction m generalizing lg with
  | zero => simp [soloIter, soloStep, runTask, yieldsP, withLog]
  | succ m ih => simpa [soloIter, soloStep, runTask, yieldsP] using ih lg

/-- If a resumed scope whose store holds key halts, it halts with the
stored value: the binding survives every remaining suspension. -/
theorem bind_yields_read_halt (reg : Registry) (j : Nat) : ∀ (m : Nat) (H : Heap)
    (lg : List String) (r : Nat) (key : String)
    (hhas : mapHas (heapGet H r) key = true) (h : Heap) (l : List String)
    (res : Except String JSValue),
    soloIter reg j
        (.running { heap := H, binding := none, log := lg,
                    prog := Prog.bindK (some r) (yieldsP m (Prog.readK key Prog.ret)) Prog.ret })
      = .halted h l res → res = .ok (mapGet (heapGet H r) key) := by
  induction j with
  | zero =>
    intro m H lg r key _hhas h l res hEq
    rw [soloIter] at hEq
    simp at hEq
  | succ j ih =>
    intro m H lg r key hhas h l res hEq
    cases m with
    | zero =>
      have hstep : soloStep reg
          (.running { heap := H, binding := none, log := lg,
                      prog := Prog.bindK (some r) (yieldsP 0 (Prog.readK key Prog.ret)) Prog.ret })
          = .halted H lg (.ok (mapGet (heapGet H r) key)) := by
        simp [soloStep, runTask, yieldsP, get, storeOf, hhas, withLog]
      rw [soloIter, hstep, soloIter_halted] at hEq
      cases hEq
      rfl
    | succ m' =>
      have hstep : soloStep reg
          (.running { heap := H, binding := none, log := lg,
                      prog := Prog.bindK (some r) (yieldsP (m' + 1) (Prog.readK key Prog.ret)) Prog.ret })
          = .running { heap := H, binding := none, log := lg,
                       prog := Prog.bindK (some r) (yieldsP m' (Prog.readK key Prog.ret)) Prog.ret } := by
        simp [soloStep, runTask, yieldsP]
      rw [soloIter, hstep] at hEq
      exact ih m' H lg r key hhas h l res hEq

end AsyncCtx
namespace AsyncCtx

/-- First turn of a branch that opens a scope, overwrites key and has no
awaits left: it halts immediately with the written value. -/
theorem scope_write_read_now (reg : Registry) (init : List (String × JSValue))
    (key : String) (v : JSValue) :
    soloStep reg (.running
        { heap := [], binding := none, log := [],
          prog := Prog.runCtxK init
            (Prog.writeK key v (yieldsP 0 (Prog.readK key Prog.ret))) Prog.ret })
      = .halted [mapSet (initFold init) key v] [] (.ok v) := by
  have hw : writeInits ([] ++ [[]]) 0 init = [initFold init] := writeInits_fresh init []
  simp only [List.nil_append] at hw
  simp [soloStep, runTask, yieldsP, get, storeOf, withLog, hw, heapGet, heapSet,
    mapHas_mapSet_self, mapGet_mapSet_self]

/-- First turn of a branch that opens a scope, overwrites key and then
suspends: it suspends with its continuation tagged with the scope store. -/
theorem scope_write_read_suspend (reg : Registry) (init : List (String × JSValue))
    (key : String) (v : JSValue) (m : Nat) :
    soloStep reg (.running
        { heap := [], binding := none, log := [],
          prog := Prog.runCtxK init
            (Prog.writeK key v (yieldsP (m + 1) (Prog.readK key Prog.ret))) Prog.ret })
      = .running
        { heap := [mapSet (initFold init) key v], binding := none, log := [],
          prog := Prog.bindK (some 0) (yieldsP m (Prog.readK key Prog.ret)) Prog.ret } := by
  have hw : writeInits ([] ++ [[]]) 0 init = [initFold init] := writeInits_fresh init []
  simp only [List.nil_append] at hw
  simp [soloStep, runTask, yieldsP, hw, heapGet, heapSet]

/-- Whenever the write-then-awaits-then-read branch halts, it halts with
the written value. -/
theorem write_read_halt (reg : Registry) (j : Nat) (init : List (String × JSValue))
    (key : String) (v : JSValue) (n : Nat) (h : Heap) (l : List String)
    (res : Except String JSValue) :
    soloIter reg j (.running
        { heap := [], binding := none, log := [],
          prog := Prog.runCtxK init
            (Prog.writeK key v (yieldsP n (Prog.readK key Prog.ret))) Prog.ret })
      = .halted h l res → res = .ok v := by
  cases j with
  | zero =>
    intro hEq
    rw [soloIter] at hEq
    simp at hEq
  | succ j =>
    intro hEq
    cases n with
    | zero =>
      rw [soloIter, scope_write_read_now, soloIter_halted] at hEq
      cases hEq
      rfl
    | succ m =>
      rw [soloIter, scope_write_read_suspend] at hEq
      have hhas : mapHas (heapGet [mapSet (initFold init) key v] 0) key = true := by
        simp [heapGet, mapHas_mapSet_self]
      have := bind_yields_read_halt reg j m [mapSet (initFold init) key v] [] 0 key hhas h l res hEq
      simpa [heapGet, mapGet_mapSet_self] using this

end AsyncCtx
namespace AsyncCtx

theorem iso_two_steps (reg : Registry) (va : JSValue) :
    soloStep reg (soloStep reg (.running (isoBranch va))) = .halted [[("k", va)]] [] (.ok va) := rfl

/-- Claim C1: runWithAsyncContext isolates unrelated execution branches:
(1) under any schedule, the state the scheduler records for branch i is
exactly what branch i computes in isolation given its number of turns, so
no read inside one branch can ever observe another branch's store, and the
active-store binding each continuation was tagged with is restored at
every resumption; (2) concretely, a scope initialized with value va for
key "k" that reads "k" after a suspension point always obtains va,
whatever other branch runs meanwhile and however the turns interleave. -/
theorem C1_branch_isolation :
    (∀ (reg : Registry) (sc : List Nat) (ts : List TStatus) (i : Nat),
      nthT (sched reg sc ts) i = (nthT ts i).map (soloIter reg (turns sc i))) ∧
    (∀ (reg : Registry) (va : JSValue) (tB : TStatus) (sc : List Nat),
      nthT (sched reg (sc ++ [0, 0]) [.running (isoBranch va), tB]) 0
        = some (.halted [[("k", va)]] [] (.ok va))) := by
  refine ⟨fun reg sc ts i => sched_proj sc reg ts i, fun reg va tB sc => ?_⟩
  rw [sched_proj]
  have hc : turns (sc ++ [0, 0]) 0 = turns sc 0 + 2 := by
    rw [turns_append]; simp [turns]
  rw [hc]
  have hrun : soloIter reg (turns sc 0 + 2) (.running (isoBranch va))
      = .halted [[("k", va)]] [] (.ok va) := by
    rw [soloIter_add_two, iso_two_steps, soloIter_halted]
  simp [nthT, hrun]

/-- Claim C2 (amended): writing through the ctx accessor with no active
store throws synchronously, with the registry name, the key and the
JSON-rendered value interpolated into the two-paragraph template — whose
second paragraph in the source reads "This usually hapens", not
"This usually happens" as the spec prints it. -/
theorem C2_write_error_message (reg : Registry) (heap : Heap) (key : String)
    (v : JSValue) (k : Prog) :
    set reg none key v = .error (setMessage reg.name key (jsonStringify v)) ∧
    runTask reg heap none (Prog.writeK key v k)
      = .finished heap [] (.error (setMessage reg.name key (jsonStringify v))) ∧
    setMessage reg.name key (jsonStringify v)
      = "AsyncLocalStorage \"" ++ reg.name ++ "\" store undefined when setting a new value.\n\n" ++
          "This usually hapens when you don\x27t initialize the context before trying to set a value.\n" ++
          "Make sure you are using `runWithAsyncContext` to wrap your entry point.\n\n" ++
          "Key: \t\x27" ++ key ++ "\x27\nValue: \t\x27" ++ jsonStringify v ++ "\x27\n" :=
  ⟨rfl, rfl, rfl⟩

/-- Claim C2 counterexample: at a concrete write, the message the code
throws differs from the exact text printed in the spec (the source says
"hapens" where the spec prints "happens"). -/
theorem C2_write_error_cex :
    runTask reg0 [] none (Prog.writeK "correlationId" (JSValue.str ":id") (Prog.ret JSValue.undef))
      = .finished [] [] (.error (setMessage "app" "correlationId" "\":id\"")) ∧
    setMessage "app" "correlationId" "\":id\"" ≠ specSetMessage "app" "correlationId" "\":id\"" :=
  ⟨rfl, by decide⟩

/-- Claim C3: a read with no active store does not throw (given the hook
returns), returns the registered default for the key, and invokes the
onError hook exactly once, passing the get-variant diagnostic: same
two-paragraph shape as the write error, no Value line, ending with the
Key line. -/
theorem C3_read_fallback (reg : Registry) (heap : Heap) (key : String)
    (hok : reg.onError (getMessage reg.name key) = .ok ()) :
    runTask reg heap none (Prog.readK key Prog.ret)
      = .finished heap [getMessage reg.name key] (.ok (reg.defaults key)) ∧
    get reg none key = ([getMessage reg.name key], .ok (reg.defaults key)) ∧
    getMessage reg.name key
      = "AsyncLocalStorage \"" ++ reg.name ++ "\" store undefined when getting a value.\n\n" ++
          "This usually hapens when you don\x27t initialize the context before trying to get a value.\n" ++
          "Make sure you are using `runWithAsyncContext` to wrap your entry point.\n\n" ++
          "Key: \t\x27" ++ key ++ "\x27\n" := by
  refine ⟨?_, ?_, rfl⟩
  · simp [runTask, get, storeOf, hok, withLog]
  · simp [get, hok]

theorem C3_read_fallback_witness :
    reg0.onError (getMessage reg0.name "k") = Except.ok () ∧
    runTask reg0 [] none (Prog.readK "k" Prog.ret)
      = .finished [] [getMessage reg0.name "k"] (.ok (reg0.defaults "k")) :=
  ⟨rfl, (C3_read_fallback reg0 [] "k" rfl).1⟩

/-- Claim C4: the onError hook fires only for reads with no active store:
a write with no store throws without invoking the hook (empty log), a
write with an active store succeeds without invoking it, and a read with
an active store never invokes it even when the key is absent, in which
case the read falls through to the default for the key. -/
theorem C4_hook_only_missing_store (reg : Registry) (heap : Heap) (store : StoreMap)
    (key : String) (v : JSValue) (H1 H2 : Heap) (s : StoreMap) :
    get reg (some store) key
      = ([], .ok (if mapHas store key then mapGet store key else reg.defaults key)) ∧
    runTask reg heap none (Prog.writeK key v (Prog.ret JSValue.undef))
      = .finished heap [] (.error (setMessage reg.name key (jsonStringify v))) ∧
    runTask reg (H1 ++ s :: H2) (some H1.length) (Prog.writeK key v (Prog.ret JSValue.undef))
      = .finished (H1 ++ mapSet s key v :: H2) [] (.ok JSValue.undef) := by
  refine ⟨?_, rfl, ?_⟩
  · by_cases h : mapHas store key <;> simp [get, h]
  · simp [runTask, heapGet_mid, heapSet_mid]

/-- Claim C5: runWithAsyncContext allocates a fresh empty store, writes
the initial values into it through the ordinary write path before the
callback runs, invokes the callback with no arguments, and returns exactly
the callback's result — also when the callback suspends (is asynchronous)
before producing it. -/
theorem C5_runctx_contract (reg : Registry) (heap : Heap) (b : Option Nat) (r : Nat)
    (init : List (String × JSValue)) (body : Prog) (v : JSValue) (n : Nat) :
    runTask reg heap (some r) (writesProg init body)
      = runTask reg (writeInits heap r init) (some r) body ∧
    runTask reg heap b (Prog.runCtxK init (Prog.ret v) Prog.ret)
      = .finished (heap ++ [initFold init]) [] (.ok v) ∧
    soloIter reg (n + 1) (.running
        { heap := [], binding := none, log := [],
          prog := Prog.runCtxK init (yieldsP n (Prog.ret v)) Prog.ret })
      = .halted [initFold init] [] (.ok v) := by
  refine ⟨runTask_writesProg init reg heap r body, ?_, ?_⟩
  · have hw : writeInits (heap ++ [[]]) heap.length init = heap ++ [initFold init] :=
      writeInits_fresh init heap
    simp [runTask, hw, withLog]
  · cases n with
    | zero =>
      have hw : writeInits ([] ++ [[]]) 0 init = [initFold init] := writeInits_fresh init []
      simp only [List.nil_append] at hw
      simp [soloIter, soloStep, runTask, yieldsP, hw, withLog]
    | succ m =>
      have hw : writeInits ([] ++ [[]]) 0 init = [initFold init] := writeInits_fresh init []
      simp only [List.nil_append] at hw
      rw [soloIter]
      have hstep : soloStep reg (.running
          { heap := [], binding := none, log := [],
            prog := Prog.runCtxK init (yieldsP (m + 1) (Prog.ret v)) Prog.ret })
          = .running { heap := [initFold init], binding := none, log := [],
                       prog := Prog.bindK (some 0) (yieldsP m (Prog.ret v)) Prog.ret } := by
        simp [soloStep, runTask, yieldsP, hw]
      rw [hstep]
      exact bind_yields_ret reg m [initFold init] [] 0 v

/-- Claim C6: write-then-read round trip inside one scope: after writing v
for key, a later read of key in the same scope returns v, with any number
of awaits between the write and the read and under any interleaving with
any other branch. -/
theorem C6_write_then_read (reg : Registry) (init : List (String × JSValue))
    (key : String) (v : JSValue) (n : Nat) (tB : TStatus) (sc : List Nat)
    (h : Heap) (l : List String) (res : Except String JSValue)
    (hEq : nthT (sched reg sc [.running
        { heap := [], binding := none, log := [],
          prog := Prog.runCtxK init
            (Prog.writeK key v (yieldsP n (Prog.readK key Prog.ret))) Prog.ret }, tB]) 0
      = some (.halted h l res)) : res = .ok v := by
  rw [sched_proj] at hEq
  simp only [nthT, Option.map_some'] at hEq
  rw [Option.some.injEq] at hEq
  exact write_read_halt reg (turns sc 0) init key v n h l res hEq

theorem C6_write_then_read_witness :
    nthT (sched reg0 [0, 0] [.running
        { heap := [], binding := none, log := [],
          prog := Prog.runCtxK []
            (Prog.writeK "k" (JSValue.str "x") (yieldsP 1 (Prog.readK "k" Prog.ret))) Prog.ret },
      .halted [] [] (.ok JSValue.undef)]) 0
      = some (.halted [[("k", JSValue.str "x")]] [] (.ok (JSValue.str "x"))) ∧
    (Except.ok (JSValue.str "x") : Except String JSValue) = .ok (JSValue.str "x") :=
  ⟨rfl, C6_write_then_read reg0 [] "k" (JSValue.str "x") 1 (.halted [] [] (.ok JSValue.undef))
    [0, 0] [[("k", JSValue.str "x")]] [] (.ok (JSValue.str "x")) rfl⟩

/-- Claim C7: nested scopes form a LIFO stack per branch: with outer value
v1 and inner value v2 for key, the read before entering the inner scope
and the read after it returns both observe v1, while the read inside the
inner scope observes v2. -/
theorem C7_nesting_restores_outer (reg : Registry) (key : String) (v1 v2 : JSValue) :
    runTask reg [] none (Prog.runCtxK [(key, v1)]
        (Prog.readK key (fun a => Prog.runCtxK [(key, v2)] (Prog.readK key Prog.ret)
          (fun bb => Prog.readK key (fun c => Prog.ret (JSValue.arr [a, bb, c]))))) Prog.ret)
      = .finished [[(key, v1)], [(key, v2)]] [] (.ok (JSValue.arr [v1, v2, v1])) := by
  simp [runTask, get, storeOf, writeInits, heapGet, heapSet, mapSet, mapHas, mapGet,
    withLog, initFold]

/-- Claim C8: presence in the store, not definedness of the value, decides
whether the default is used: a key bound to undefined reads back as
undefined, both after an explicit write and from an initial-value
binding. -/
theorem C8_undefined_presence (reg : Registry) (store : StoreMap) (key : String) :
    get reg (some (mapSet store key JSValue.undef)) key = ([], .ok JSValue.undef) ∧
    runTask reg [] none (Prog.runCtxK [(key, JSValue.undef)] (Prog.readK key Prog.ret) Prog.ret)
      = .finished [[(key, JSValue.undef)]] [] (.ok JSValue.undef) := by
  constructor
  · simp [get, mapHas_mapSet_self, mapGet_mapSet_self]
  · simp [runTask, get, storeOf, writeInits, heapGet, heapSet, mapSet, mapHas, mapGet, withLog]

/-- Claim C9: the hook runs synchronously inside the read, before the
default is returned; a throwing hook therefore makes the read throw that
exception, so reads are non-throwing only while the hook is. -/
theorem C9_hook_throw_propagates (reg : Registry) (heap : Heap) (key : String)
    (e : String) (k : JSValue → Prog)
    (hthrow : reg.onError (getMessage reg.name key) = .error e) :
    runTask reg heap none (Prog.readK key k)
      = .finished heap [getMessage reg.name key] (.error e) := by
  simp [runTask, get, storeOf, hthrow]

theorem C9_hook_throw_propagates_witness :
    regE.onError (getMessage regE.name "k") = Except.error "hook boom" ∧
    runTask regE [] none (Prog.readK "k" Prog.ret)
      = .finished [] [getMessage regE.name "k"] (.error "hook boom") :=
  ⟨rfl, C9_hook_throw_propagates regE [] "k" "hook boom" Prog.ret rfl⟩

/-- Claim C10: when the callback throws synchronously, runWithAsyncContext
propagates the exception unchanged to its caller, and the caller resumes
under the binding it had before the call, with the enclosing store's
contents untouched (the abandoned inner store stays allocated but is
unreachable from the caller's binding). -/
theorem C10_throw_restores_outer (reg : Registry) (H1 H2 : Heap) (s : StoreMap)
    (b : Option Nat) (init : List (String × JSValue)) (emsg : String)
    (onErr : String → Prog) (k : JSValue → Prog) :
    runTask reg (H1 ++ s :: H2) b
        (Prog.tryK (Prog.runCtxK init (Prog.throwK emsg) Prog.ret) onErr k)
      = runTask reg ((H1 ++ s :: H2) ++ [initFold init]) b (onErr emsg) ∧
    storeOf ((H1 ++ s :: H2) ++ [initFold init]) (some H1.length) = some s ∧
    storeOf (H1 ++ s :: H2) (some H1.length) = some s := by
  refine ⟨?_, ?_, ?_⟩
  · have hw : writeInits ((H1 ++ s :: H2) ++ [[]]) (H1 ++ s :: H2).length init
        = (H1 ++ s :: H2) ++ [initFold init] := writeInits_fresh init (H1 ++ s :: H2)
    simp at hw
    simp [runTask, hw, withLog_nil]
  · have hassoc : (H1 ++ s :: H2) ++ [initFold init] = H1 ++ s :: (H2 ++ [initFold init]) := by
      simp
    rw [hassoc]
    simp [storeOf, heapGet_mid]
  · simp [storeOf, heapGet_mid]

end AsyncCtx
